import Mathlib

/-!
Verification of the sale/return settlement core of the Khalil-Pharmacy
point-of-sale application (`src/hooks/useSales.ts`, plus the return
eligibility check in `src/pages/Auth.tsx`).

The TypeScript code is shallowly embedded as pure Lean functions:

* quantities and money amounts are `Int` (the quantity paths of the code
  perform only integer arithmetic: `Math.min`, `+`, `-`);
* the remote store (tables `sales`, `sale_items`, `sales_returns`,
  `return_items`, `stock_batches`) is an explicit `Store` record threaded
  through the settlement functions; lists of table rows are kept
  most-recent-first, mirroring the `order by created_at desc` reads;
* each network round-trip that the code `await`s inside its `try` block can
  be made to throw by a fault parameter (`SaleFaults` / `ReturnFaults`);
  a `some msg` fault models a storage-layer exception carrying `msg`,
  which the surrounding `catch` turns into a structured failure result;
* the `Promise.all` fan-out of batch-quantity writes is linearised in
  push order (each write targets one batch id and stores an absolute
  value, so for distinct ids any linearisation agrees; for duplicate ids
  this picks the last pushed write, one of the possible outcomes);
  when the modelled fault for the update fan-out fires, the writes are
  still applied, since the claims about faults only concern the returned
  result, never the store contents;
* JavaScript string operations that the code uses (`split`, `padStart`,
  `parseInt`, `ilike 'ZZ-%'`, `slice`) are re-implemented over `List Char`
  so that every definition evaluates inside the Lean kernel.

Sources for each definition are cited by line number in `useSales.ts`.
-/

namespace Pharmacy

/-! ## JavaScript string primitives -/

/-- JavaScript `s.split(sep)` restricted to a one-character separator,
at the level of character lists. -/
def splitOnChar (c : Char) : List Char → List (List Char)
  | [] => [[]]
  | x :: xs =>
    let r := splitOnChar c xs
    if x = c then [] :: r
    else
      match r with
      | [] => [[x]]
      | h :: t => (x :: h) :: t

/-- JavaScript `s.split(sep)` for a one-character separator. -/
def jsSplit (sep : Char) (s : String) : List String :=
  (splitOnChar sep s.toList).map (fun l => String.mk l)

/-- JavaScript `s.padStart(w, '0')`. -/
def padStartZeros (w : Nat) (s : String) : String :=
  String.mk (List.replicate (w - s.length) '0') ++ s

/-- Decimal value of a digit list. -/
def digitsVal (ds : List Char) : Nat :=
  ds.foldl (fun a c => a * 10 + (c.toNat - 48)) 0

/-- JavaScript `parseInt(s, 10)` for the strings this code meets: reads the
maximal leading run of decimal digits, `NaN` (here `none`) when the first
character is not a digit.  Sign and whitespace forms do not occur in
receipt suffixes and are not modelled. -/
def parseIntBase10 (s : String) : Option Nat :=
  let ds := s.toList.takeWhile Char.isDigit
  if ds.isEmpty then none else some (digitsVal ds)

/-- JavaScript `s.slice(-n)`: the last `n` characters (the whole string
when it is shorter). -/
def sliceLast (n : Nat) (s : String) : String :=
  String.mk (s.toList.drop (s.toList.length - n))

/-! ## Data model (`useSales.ts` lines 6-58, 162-167) -/

/-- Interface `BatchDeduction`, lines 6-11. -/
structure BatchDeduction where
  batch_id : String
  batch_number : String
  quantity : Int
  expiry_date : String
deriving DecidableEq

/-- Interface `AvailableBatch`, lines 162-167: one element of the
caller-supplied `getAvailableBatches(productId)` snapshot. -/
structure AvailableBatch where
  id : String
  batch_number : String
  quantity : Int
  expiry_date : String
deriving DecidableEq

/-- Interface `CartItem`, lines 50-58 (the `strength` and
`available_stock` fields are never read by the settlement code and are
omitted). -/
structure CartItem where
  product_id : String
  product_name : String
  quantity : Int
  unit_price : Int
  total : Int
deriving DecidableEq

/-- Row of the `sales` table as inserted by `processSale`, lines 238-247. -/
structure Sale where
  id : String
  receipt_number : String
  total : Int
  payment_method : String
  cashier_id : Option String
deriving DecidableEq

/-- Row of the `sale_items` table as inserted by `processSale`,
lines 252-260. -/
structure SaleItemRow where
  sale_id : String
  product_id : String
  product_name : String
  quantity : Int
  unit_price : Int
  total : Int
  batch_deductions : List BatchDeduction
deriving DecidableEq

/-- Row of the `sales_returns` table as inserted by `processReturn`,
lines 346-355. -/
structure SalesReturnRow where
  id : String
  sale_id : String
  receipt_number : String
  return_reason : String
  returned_by : Option String
deriving DecidableEq

/-- Row of the `return_items` table as pushed into `returnItemsData`,
lines 377-397.  A `none` batch id is the fallback path with no batch
attribution. -/
structure ReturnItemRow where
  return_id : String
  sale_item_id : String
  product_id : String
  batch_id : Option String
  quantity : Int
deriving DecidableEq

/-- One element of the `returnItems` argument of `processReturn`,
lines 326-331. -/
structure ReturnRequest where
  sale_item_id : String
  product_id : String
  quantity : Int
  batch_deductions : Option (List BatchDeduction)
deriving DecidableEq

/-- The remote store: the five tables the settlement core touches.
`batches` maps a stock-batch id to its remaining quantity; the row lists
are kept most-recent-first. -/
structure Store where
  batches : List (String × Int)
  sales : List Sale
  sale_items : List SaleItemRow
  sales_returns : List SalesReturnRow
  return_items : List ReturnItemRow
deriving DecidableEq

/-- Result shape of `processSale`, line 173. -/
structure SaleOutcome where
  success : Bool
  error : Option String
  sale : Option Sale
deriving DecidableEq

/-- Result shape of `processReturn`, line 333. -/
structure ReturnOutcome where
  success : Bool
  error : Option String
deriving DecidableEq

/-! ## JavaScript `Map` over string keys, and batch updates -/

/-- JavaScript `map.set(k, v)` on an association list: overwrite the
binding when the key is present, append it otherwise. -/
def mapSet (m : List (String × Int)) (k : String) (v : Int) : List (String × Int) :=
  if m.any (fun p => p.1 = k) then m.map (fun p => if p.1 = k then (p.1, v) else p)
  else m ++ [(k, v)]

/-- JavaScript `map.get(k)`: `none` models `undefined`. -/
def mapGet (m : List (String × Int)) (k : String) : Option Int :=
  (m.find? (fun p => p.1 = k)).map (fun p => p.2)

/-- JavaScript `new Map(entries)`: later entries overwrite earlier ones. -/
def mapOfList (l : List (String × Int)) : List (String × Int) :=
  l.foldl (fun m p => mapSet m p.1 p.2) []

/-- One `update stock_batches set quantity = q where id = b` round trip:
every row whose id matches is set to the absolute value `q`. -/
def setBatchQty (bs : List (String × Int)) (b : String) (q : Int) : List (String × Int) :=
  bs.map (fun p => if p.1 = b then (p.1, q) else p)

/-- The `Promise.all(batchUpdates.map(...))` fan-out (lines 299-306 and
431-438), linearised in push order. -/
def applyUpdates (bs : List (String × Int)) (ups : List (String × Int)) : List (String × Int) :=
  ups.foldl (fun acc u => setBatchQty acc u.1 u.2) bs

/-! ## Receipt numbering (`generateReceiptNumber`, lines 131-160) -/

/-- The `ilike 'ZZ-%'` filter of line 136: case-insensitive prefix match
against `ZZ-`. -/
def matchesZZ (s : String) : Bool :=
  match s.toList with
  | c1 :: c2 :: c3 :: _ => (c1 == 'Z' || c1 == 'z') && (c2 == 'Z' || c2 == 'z') && c3 == '-'
  | _ => false

/-- The query of lines 133-139: the receipt number of the most recent sale
matching `ZZ-%`; `sales` is most-recent-first, so this is the first match. -/
def latestZZReceipt (sales : List Sale) : Option String :=
  (sales.find? (fun s => matchesZZ s.receipt_number)).map (fun s => s.receipt_number)

/-- Lines 141-151: parse the suffix of the latest receipt and format the
next receipt number. -/
def nextReceiptNumber (latest : Option String) : String :=
  let nextNum : Nat :=
    match latest with
    | none => 1
    | some r =>
      match jsSplit '-' r with
      | [_, suf] =>
        match parseIntBase10 suf with
        | some n => n + 1
        | none => 1
      | _ => 1
  "ZZ-" ++ padStartZeros 5 (toString nextNum)

/-- Whole of `generateReceiptNumber` (lines 131-160): on a storage fault
the inner catch falls back to `ZZ-` + the last five digits of the current
epoch-millisecond timestamp (lines 152-159); otherwise the next sequential
number. -/
def generateReceiptNumber (fault : Option String) (nowMs : Nat) (sales : List Sale) : String :=
  match fault with
  | some _ => "ZZ-" ++ sliceLast 5 (sliceLast 6 (toString nowMs))
  | none => nextReceiptNumber (latestZZReceipt sales)

/-! ## FEFO allocation (`processSale`, lines 205-222) -/

/-- The FEFO deduction loop of lines 205-222: walk the batches in the
given order, deduct `min(batch.quantity, remaining)` from each, skip
batches whose deduction would not be positive, stop when nothing remains.
A pure computation: it only builds the deduction plan and touches no
batch state. -/
def fefoAllocate : Int → List AvailableBatch → List BatchDeduction
  | _, [] => []
  | remainingQty, batch :: rest =>
    if remainingQty ≤ 0 then []
    else
      let deductQty := min batch.quantity remainingQty
      if deductQty ≤ 0 then fefoAllocate remainingQty rest
      else
        { batch_id := batch.id
          batch_number := batch.batch_number
          quantity := deductQty
          expiry_date := batch.expiry_date } :: fefoAllocate (remainingQty - deductQty) rest

/-- A cart item together with its computed deductions (the element shape
of `itemsWithDeductions`, lines 176-183). -/
structure ItemWithDeductions where
  product_id : String
  product_name : String
  quantity : Int
  unit_price : Int
  total : Int
  batch_deductions : List BatchDeduction
deriving DecidableEq

/-- The validation loop of lines 185-232: reject the first cart item with
an empty product id or name (JavaScript falsy check on strings), reject
the first item whose batches sum below its quantity, otherwise attach the
FEFO deductions.  Runs before any storage round trip. -/
def buildDeductions (gab : String → List AvailableBatch) :
    List CartItem → Except String (List ItemWithDeductions)
  | [] => Except.ok []
  | item :: rest =>
    if item.product_id = "" ∨ item.product_name = "" then
      Except.error "Invalid cart item"
    else
      let availableBatches := gab item.product_id
      let totalAvailable := (availableBatches.map (fun b => b.quantity)).sum
      if totalAvailable < item.quantity then
        Except.error ("Insufficient stock for " ++ item.product_name ++
          ". Available: " ++ toString totalAvailable)
      else
        match buildDeductions gab rest with
        | Except.error e => Except.error e
        | Except.ok tl =>
          Except.ok
            ({ product_id := item.product_id
               product_name := item.product_name
               quantity := item.quantity
               unit_price := item.unit_price
               total := item.total
               batch_deductions := fefoAllocate item.quantity availableBatches } :: tl)

/-! ## Sale settlement (`processSale`, lines 169-322) -/

/-- Fault injection for the four storage round trips of `processSale`.
A `some msg` entry makes the corresponding `await` throw an exception
whose message is `msg`. -/
structure SaleFaults where
  receiptQuery : Option String
  saleInsert : Option String
  itemsInsert : Option String
  batchSelect : Option String
  batchUpdate : Option String
deriving DecidableEq

/-- The fault-free schedule. -/
def noSaleFaults : SaleFaults :=
  { receiptQuery := none, saleInsert := none, itemsInsert := none
    batchSelect := none, batchUpdate := none }

/-- The batch-update plan of lines 286-296: for every deduction of every
line item, push an absolute write of `current - deduction.quantity`, where
`current` is looked up in the one-shot snapshot `batchMap` (the map is
never updated inside this loop, so several deductions against the same
batch all read the same snapshot value). -/
def saleBatchUpdates (batchMap : List (String × Int))
    (itemsWithDeductions : List ItemWithDeductions) : List (String × Int) :=
  itemsWithDeductions.flatMap (fun item =>
    item.batch_deductions.map (fun d =>
      (d.batch_id, ((mapGet batchMap d.batch_id).getD 0) - d.quantity)))

/-- Shallow embedding of `processSale` (lines 169-322).  `newSaleId` is
the row id the store assigns to the inserted sale and `nowMs` the clock
read used by the receipt-number fallback.  Returns the structured result
together with the final store. -/
def processSale (store : Store) (items : List CartItem) (paymentMethod : String)
    (gab : String → List AvailableBatch) (cashierId : Option String)
    (newSaleId : String) (nowMs : Nat) (faults : SaleFaults) :
    SaleOutcome × Store :=
  match buildDeductions gab items with
  | Except.error msg => ({ success := false, error := some msg, sale := none }, store)
  | Except.ok itemsWithDeductions =>
    let receiptNumber := generateReceiptNumber faults.receiptQuery nowMs store.sales
    let total := (items.map (fun i => i.total)).sum
    match faults.saleInsert with
    | some m => ({ success := false, error := some m, sale := none }, store)
    | none =>
      let saleData : Sale :=
        { id := newSaleId, receipt_number := receiptNumber, total := total
          payment_method := paymentMethod, cashier_id := cashierId }
      let store1 := { store with sales := saleData :: store.sales }
      let saleItems := itemsWithDeductions.map (fun item =>
        { sale_id := newSaleId, product_id := item.product_id
          product_name := item.product_name, quantity := item.quantity
          unit_price := item.unit_price, total := item.total
          batch_deductions := item.batch_deductions : SaleItemRow })
      match faults.itemsInsert with
      | some m => ({ success := false, error := some m, sale := none }, store1)
      | none =>
        let store2 := { store1 with sale_items := saleItems ++ store1.sale_items }
        let batchIdsToFetch := itemsWithDeductions.flatMap (fun item =>
          item.batch_deductions.map (fun d => d.batch_id))
        if batchIdsToFetch.isEmpty then
          ({ success := true, error := none, sale := some saleData }, store2)
        else
          match faults.batchSelect with
          | some m => ({ success := false, error := some m, sale := none }, store2)
          | none =>
            let currentBatches := store2.batches.filter (fun p => batchIdsToFetch.contains p.1)
            let batchMap := mapOfList currentBatches
            let batchUpdates := saleBatchUpdates batchMap itemsWithDeductions
            let store3 := { store2 with batches := applyUpdates store2.batches batchUpdates }
            match faults.batchUpdate with
            | some m => ({ success := false, error := some m, sale := none }, store3)
            | none => ({ success := true, error := none, sale := some saleData }, store3)

/-! ## Return settlement (`processReturn`, lines 324-449) -/

/-- Fault injection for the storage round trips of `processReturn`. -/
structure ReturnFaults where
  returnInsert : Option String
  itemsInsert : Option String
  batchSelect : Option String
  batchUpdate : Option String
deriving DecidableEq

/-- The fault-free schedule. -/
def noReturnFaults : ReturnFaults :=
  { returnInsert := none, itemsInsert := none, batchSelect := none, batchUpdate := none }

/-- The ledger walk of lines 370-388: restore `min(deduction.quantity,
remaining)` per ledger entry, in ledger order, skipping entries whose
restore quantity would not be positive, stopping when the requested
return quantity is exhausted. -/
def walkLedger (returnId saleItemId productId : String) :
    Int → List BatchDeduction → List ReturnItemRow
  | _, [] => []
  | remainingReturnQty, deduction :: rest =>
    if remainingReturnQty ≤ 0 then []
    else
      let restoreQty := min deduction.quantity remainingReturnQty
      if restoreQty > 0 then
        { return_id := returnId, sale_item_id := saleItemId, product_id := productId
          batch_id := some deduction.batch_id, quantity := restoreQty }
          :: walkLedger returnId saleItemId productId (remainingReturnQty - restoreQty) rest
      else walkLedger returnId saleItemId productId remainingReturnQty rest

/-- The per-item branch of lines 364-399: a non-empty deduction ledger is
walked; otherwise (no ledger, or an empty one) the whole requested
quantity is recorded as a single row without batch attribution. -/
def returnRowsFor (returnId : String) (item : ReturnRequest) : List ReturnItemRow :=
  match item.batch_deductions with
  | some (d :: ds) => walkLedger returnId item.sale_item_id item.product_id item.quantity (d :: ds)
  | _ =>
    [{ return_id := returnId, sale_item_id := item.sale_item_id
       product_id := item.product_id, batch_id := none, quantity := item.quantity }]

/-- The restore computation of lines 420-428: walk the recorded rows, skip
rows without a batch id, add each quantity onto a running map (note the
`batchMap.set`, which makes repeated hits on one batch accumulate), and
push one absolute write per row. -/
def computeRestore : List (String × Int) → List ReturnItemRow → List (String × Int)
  | _, [] => []
  | batchMap, row :: rest =>
    match row.batch_id with
    | none => computeRestore batchMap rest
    | some b =>
      let currentQty := (mapGet batchMap b).getD 0
      let newQty := currentQty + row.quantity
      (b, newQty) :: computeRestore (mapSet batchMap b newQty) rest

/-- Shallow embedding of `processReturn` (lines 324-449).  `newReturnId`
is the row id assigned to the inserted return and `receiptNumber` the
timestamp-derived return receipt (line 343), which depends only on the
clock. -/
def processReturn (store : Store) (saleId : String) (returnItems : List ReturnRequest)
    (returnReason : String) (returnedBy : Option String)
    (newReturnId receiptNumber : String) (faults : ReturnFaults) :
    ReturnOutcome × Store :=
  if saleId = "" ∨ returnItems.isEmpty then
    ({ success := false, error := some "Invalid return request" }, store)
  else
    match faults.returnInsert with
    | some m => ({ success := false, error := some m }, store)
    | none =>
      let returnData : SalesReturnRow :=
        { id := newReturnId, sale_id := saleId, receipt_number := receiptNumber
          return_reason := returnReason, returned_by := returnedBy }
      let store1 := { store with sales_returns := returnData :: store.sales_returns }
      let returnItemsData := returnItems.flatMap (returnRowsFor newReturnId)
      match (if returnItemsData.isEmpty then none else faults.itemsInsert) with
      | some m => ({ success := false, error := some m }, store1)
      | none =>
        let store2 := { store1 with return_items := returnItemsData ++ store1.return_items }
        let batchIdsToFetch := returnItemsData.filterMap (fun r => r.batch_id)
        if batchIdsToFetch.isEmpty then
          ({ success := true, error := none }, store2)
        else
          match faults.batchSelect with
          | some m => ({ success := false, error := some m }, store2)
          | none =>
            let currentBatches := store2.batches.filter (fun p => batchIdsToFetch.contains p.1)
            let batchMap := mapOfList currentBatches
            let batchUpdates := computeRestore batchMap returnItemsData
            let store3 := { store2 with batches := applyUpdates store2.batches batchUpdates }
            match faults.batchUpdate with
            | some m => ({ success := false, error := some m }, store3)
            | none => ({ success := true, error := none }, store3)

/-! ## Return eligibility (`Auth.tsx`, `handleSearchReceipt`, lines 416-428) -/

/-- The `date-fns differenceInDays` call of line 419 for `later ≥ earlier`,
over epoch-millisecond timestamps: the number of full days elapsed
(truncating division; calendar and DST adjustments do not change the
result at this granularity for the fixed-length day arithmetic the claims
use). -/
def differenceInDays (laterMs earlierMs : Nat) : Nat :=
  (laterMs - earlierMs) / 86400000

/-- The eligibility predicate of lines 422-427: the code flags the return
expired exactly when `differenceInDays(today, saleDate) > 2`, so a sale is
return-eligible when at most two full days have elapsed. -/
def isReturnEligible (saleCreatedAtMs nowMs : Nat) : Bool :=
  differenceInDays nowMs saleCreatedAtMs ≤ 2

/-! ## Concrete inputs used by the evaluation witnesses -/

/-- Batches of the worked scenario of spec section 8: quantity 3 expiring
first, then quantity 10. -/
def c1Batches : List AvailableBatch :=
  [ { id := "b1", batch_number := "B1", quantity := 3, expiry_date := "2025-01-01" },
    { id := "b2", batch_number := "B2", quantity := 10, expiry_date := "2025-06-01" } ]

/-- A one-sale store whose latest receipt is `ZZ-00007`. -/
def c7Sales : List Sale :=
  [ { id := "s1", receipt_number := "ZZ-00007", total := 0
      payment_method := "cash", cashier_id := none } ]

/-- A store holding a single batch of 3 units. -/
def c2Store : Store :=
  { batches := [("b1", 3)], sales := [], sale_items := []
    sales_returns := [], return_items := [] }

/-- A cart requesting 5 units of a product that only has 3 available. -/
def c2Cart : List CartItem :=
  [ { product_id := "p1", product_name := "Amoxil", quantity := 5, unit_price := 2, total := 10 } ]

/-- Batch snapshot collaborator for the insufficient-stock witness. -/
def c2Gab : String → List AvailableBatch := fun _ =>
  [ { id := "b1", batch_number := "B1", quantity := 3, expiry_date := "2026-01-01" } ]

/-- A store holding one batch `B` of 10 units. -/
def c3Store : Store :=
  { batches := [("B", 10)], sales := [], sale_items := []
    sales_returns := [], return_items := [] }

/-- Two cart lines for the same product, one unit each, both of which the
FEFO step allocates against batch `B`. -/
def c3Cart : List CartItem :=
  [ { product_id := "P", product_name := "Para", quantity := 1, unit_price := 5, total := 5 },
    { product_id := "P", product_name := "Para", quantity := 1, unit_price := 5, total := 5 } ]

/-- Batch snapshot collaborator for the lost-update input: both cart lines
see the same batch `B` with 10 units. -/
def c3Gab : String → List AvailableBatch := fun _ =>
  [ { id := "B", batch_number := "BN", quantity := 10, expiry_date := "2026-01-01" } ]

/-- A cart whose single item has an empty display name. -/
def c5Cart : List CartItem :=
  [ { product_id := "p1", product_name := "", quantity := 1, unit_price := 2, total := 2 } ]

/-- The return row that the ledger walk emits for a ledger entry it can
restore in full: same batch, the full originally deducted quantity. -/
def ledgerRow (rid sid pid : String) (d : BatchDeduction) : ReturnItemRow :=
  { return_id := rid, sale_item_id := sid, product_id := pid
    batch_id := some d.batch_id, quantity := d.quantity }

/-- A store holding one batch of 7 units, for the round-trip witness. -/
def c4Store : Store :=
  { batches := [("b", 7)], sales := [], sale_items := []
    sales_returns := [], return_items := [] }

/-- Batch snapshot collaborator for the round-trip witness. -/
def c4Gab : String → List AvailableBatch := fun _ =>
  [ { id := "b", batch_number := "BN", quantity := 7, expiry_date := "e" } ]

/-- A cart requesting 4 of the 7 available units. -/
def c4Cart : CartItem :=
  { product_id := "p", product_name := "N", quantity := 4, unit_price := 1, total := 4 }

/-- A store holding one batch of 5 units, for the excess-return witness. -/
def c10Store : Store :=
  { batches := [("b", 5)], sales := [], sale_items := []
    sales_returns := [], return_items := [] }

/-- A one-entry deduction ledger that originally drew 2 units from batch
`b`. -/
def c10Ledger : List BatchDeduction :=
  [ { batch_id := "b", batch_number := "BN", quantity := 2, expiry_date := "e" } ]

/-- A return request asking for 9 units against the 2-unit ledger. -/
def c10Item : ReturnRequest :=
  { sale_item_id := "si", product_id := "p", quantity := 9, batch_deductions := some c10Ledger }

/-! ## Lemmas about the FEFO allocation loop -/

/-- A non-positive remaining quantity allocates nothing. -/
theorem fefoAllocate_nonpos (q : Int) (bs : List AvailableBatch) (h : q ≤ 0) :
    fefoAllocate q bs = [] := by
  cases bs <;> simp [fefoAllocate, h]

/-- When the batches hold enough stock, the emitted deductions sum exactly
to the requested quantity. -/
theorem fefoAllocate_sum (bs : List AvailableBatch) :
    ∀ q : Int, 0 < q → q ≤ (bs.map (fun b => b.quantity)).sum →
      ((fefoAllocate q bs).map (fun d => d.quantity)).sum = q := by
  induction bs with
  | nil =>
    intro q hq havail
    simp at havail
    omega
  | cons b rest ih =>
    intro q hq havail
    simp only [List.map_cons, List.sum_cons] at havail
    have hnot : ¬ q ≤ 0 := by omega
    have hchoice := min_choice b.quantity q
    have hminle : min b.quantity q ≤ q := min_le_right _ _
    by_cases hdq : min b.quantity q ≤ 0
    · have hb : b.quantity ≤ 0 := by rcases hchoice with h | h <;> omega
      simp only [fefoAllocate, if_neg hnot, if_pos hdq]
      exact ih q hq (by omega)
    · simp only [fefoAllocate, if_neg hnot, if_neg hdq, List.map_cons, List.sum_cons]
      by_cases hrem : q - min b.quantity q ≤ 0
      · have heq : q - min b.quantity q = 0 := by omega
        rw [heq, fefoAllocate_nonpos 0 rest (le_refl 0)]
        simp
        omega
      · have hd2 : min b.quantity q = b.quantity := by rcases hchoice with h | h <;> omega
        have := ih (q - min b.quantity q) (by omega) (by omega)
        omega

/-- Every emitted deduction has a positive quantity. -/
theorem fefoAllocate_pos (bs : List AvailableBatch) :
    ∀ (q : Int) (d : BatchDeduction), d ∈ fefoAllocate q bs → 0 < d.quantity := by
  induction bs with
  | nil => intro q d hd; simp [fefoAllocate] at hd
  | cons b rest ih =>
    intro q d hd
    by_cases hq : q ≤ 0
    · simp [fefoAllocate, hq] at hd
    · by_cases hdq : min b.quantity q ≤ 0
      · simp only [fefoAllocate, if_neg hq, if_pos hdq] at hd
        exact ih q d hd
      · simp only [fefoAllocate, if_neg hq, if_neg hdq, List.mem_cons] at hd
        rcases hd with hd | hd
        · rw [hd]; exact lt_of_not_le hdq
        · exact ih _ d hd

/-- The deductions are drawn from a sublist of the given batches, in the
given order, and none deducts more than its source batch holds. -/
theorem fefoAllocate_sources (bs : List AvailableBatch) :
    ∀ q : Int, ∃ sub : List AvailableBatch, List.Sublist sub bs ∧
      List.Forall₂ (fun (d : BatchDeduction) (b : AvailableBatch) =>
        d.batch_id = b.id ∧ d.quantity ≤ b.quantity) (fefoAllocate q bs) sub := by
  induction bs with
  | nil => intro q; exact ⟨[], List.Sublist.refl [], by simp [fefoAllocate]⟩
  | cons b rest ih =>
    intro q
    by_cases hq : q ≤ 0
    · exact ⟨[], List.nil_sublist _, by simp [fefoAllocate, hq]⟩
    · by_cases hdq : min b.quantity q ≤ 0
      · obtain ⟨sub, hsub, hf⟩ := ih q
        refine ⟨sub, List.Sublist.cons b hsub, ?_⟩
        simpa [fefoAllocate, hq, hdq] using hf
      · obtain ⟨sub, hsub, hf⟩ := ih (q - min b.quantity q)
        refine ⟨b :: sub, List.Sublist.cons₂ b hsub, ?_⟩
        simp only [fefoAllocate, if_neg hq, if_neg hdq]
        exact List.Forall₂.cons ⟨rfl, min_le_left _ _⟩ hf

/-! ## Claim theorems -/

/-- C1.  FEFO allocation correctness: for every quantity above zero and
every batch list holding at least that much stock in total, the computed
deductions sum exactly to the requested quantity, are emitted in the given
batch order (a sublist pairing), every deduction is positive, and none
exceeds its source batch quantity.  The allocation is the pure function
`fefoAllocate`, so it mutates no batch state by construction. -/
theorem fefo_allocation_correct (q : Int) (batches : List AvailableBatch)
    (hq : 0 < q) (havail : q ≤ (batches.map (fun b => b.quantity)).sum) :
    ((fefoAllocate q batches).map (fun d => d.quantity)).sum = q ∧
    (∀ d ∈ fefoAllocate q batches, 0 < d.quantity) ∧
    ∃ sub : List AvailableBatch, List.Sublist sub batches ∧
      List.Forall₂ (fun (d : BatchDeduction) (b : AvailableBatch) =>
        d.batch_id = b.id ∧ d.quantity ≤ b.quantity) (fefoAllocate q batches) sub :=
  ⟨fefoAllocate_sum batches q hq havail,
   fun d hd => fefoAllocate_pos batches q d hd,
   fefoAllocate_sources batches q⟩

/-- Evaluation witness for C1 on the worked scenario of spec section 8
(quantity 5 against batches of 3 and 10). -/
theorem fefo_allocation_correct_witness :
    ((fefoAllocate 5 c1Batches).map (fun d => d.quantity)).sum = 5 ∧
    (∀ d ∈ fefoAllocate 5 c1Batches, 0 < d.quantity) ∧
    ∃ sub : List AvailableBatch, List.Sublist sub c1Batches ∧
      List.Forall₂ (fun (d : BatchDeduction) (b : AvailableBatch) =>
        d.batch_id = b.id ∧ d.quantity ≤ b.quantity) (fefoAllocate 5 c1Batches) sub :=
  fefo_allocation_correct 5 c1Batches (by decide) (by decide)

/-- C7.  Receipt numbering: with no prior `ZZ-` receipt the first number
is `ZZ-00001`; when the latest matching receipt splits into a prefix and a
suffix that `parseInt` reads as `n`, the next number is `n + 1` zero-padded
to five digits; when the suffix does not parse as a number, the counter
restarts at `ZZ-00001`. -/
theorem receipt_numbering_next :
    (∀ (nowMs : Nat) (sales : List Sale), latestZZReceipt sales = none →
      generateReceiptNumber none nowMs sales = "ZZ-00001") ∧
    (∀ (nowMs : Nat) (sales : List Sale) (r a suf : String) (n : Nat),
      latestZZReceipt sales = some r → jsSplit '-' r = [a, suf] →
      parseIntBase10 suf = some n →
      generateReceiptNumber none nowMs sales = "ZZ-" ++ padStartZeros 5 (toString (n + 1))) ∧
    (∀ (nowMs : Nat) (sales : List Sale) (r a suf : String),
      latestZZReceipt sales = some r → jsSplit '-' r = [a, suf] →
      parseIntBase10 suf = none →
      generateReceiptNumber none nowMs sales = "ZZ-00001") := by
  refine ⟨?_, ?_, ?_⟩
  · intro nowMs sales h
    simp only [generateReceiptNumber, h, nextReceiptNumber]
    decide
  · intro nowMs sales r a suf n h hsplit hparse
    simp [generateReceiptNumber, h, nextReceiptNumber, hsplit, hparse]
  · intro nowMs sales r a suf h hsplit hparse
    simp only [generateReceiptNumber, h, nextReceiptNumber, hsplit, hparse]
    decide

/-- Evaluation witness for C7: after `ZZ-00007` comes `ZZ-00008`, and an
empty sales table starts at `ZZ-00001`. -/
theorem receipt_numbering_next_witness :
    generateReceiptNumber none 0 c7Sales = "ZZ-00008" ∧
    generateReceiptNumber none 0 [] = "ZZ-00001" := by
  constructor
  · have h := receipt_numbering_next.2.1 0 c7Sales "ZZ-00007" "ZZ" "00007" 7
      (by decide) (by decide) (by decide)
    rw [h]; decide
  · exact receipt_numbering_next.1 0 [] (by decide)

/-- Counterexample to C8 as stated: at two days plus one second the code
still reports the sale as return-eligible, because `differenceInDays`
counts whole elapsed days and 2 days 1 second is still 2 whole days. -/
theorem return_eligible_two_days_one_second :
    isReturnEligible 0 172801000 = true := by decide

/-- C8 (amended).  The eligibility predicate is true exactly while fewer
than three whole days have elapsed: true at exactly 2 days, still true at
2 days plus 1 second, and false from 3 days (259200000 ms) on. -/
theorem return_eligibility_window :
    (∀ saleMs nowMs : Nat,
      isReturnEligible saleMs nowMs = true ↔ nowMs - saleMs < 259200000) ∧
    isReturnEligible 0 172800000 = true ∧
    isReturnEligible 0 172801000 = true ∧
    isReturnEligible 0 259200000 = false := by
  refine ⟨?_, by decide, by decide, by decide⟩
  intro saleMs nowMs
  simp only [isReturnEligible, differenceInDays, decide_eq_true_eq]
  omega

/-- When every cart item carries a product id and name but some item has
insufficient stock, the validation loop stops at an insufficient-stock
error naming one such item and its available total. -/
theorem buildDeductions_insufficient (gab : String → List AvailableBatch) :
    ∀ items : List CartItem,
      (∀ it ∈ items, it.product_id ≠ "" ∧ it.product_name ≠ "") →
      (∃ it ∈ items, ((gab it.product_id).map (fun b => b.quantity)).sum < it.quantity) →
      ∃ it ∈ items, ((gab it.product_id).map (fun b => b.quantity)).sum < it.quantity ∧
        buildDeductions gab items = Except.error ("Insufficient stock for " ++
          it.product_name ++ ". Available: " ++
          toString (((gab it.product_id).map (fun b => b.quantity)).sum)) := by
  intro items
  induction items with
  | nil => intro _ h; simp at h
  | cons item rest ih =>
    intro hvalid hins
    obtain ⟨hv1, hv2⟩ := hvalid item (by simp)
    have hcond : ¬ (item.product_id = "" ∨ item.product_name = "") := by
      push_neg; exact ⟨hv1, hv2⟩
    by_cases hhead : ((gab item.product_id).map (fun b => b.quantity)).sum < item.quantity
    · refine ⟨item, by simp, hhead, ?_⟩
      simp only [buildDeductions, if_neg hcond, if_pos hhead]
    · have hrest : ∃ it ∈ rest,
          ((gab it.product_id).map (fun b => b.quantity)).sum < it.quantity := by
        rcases hins with ⟨it, hmem, hlt⟩
        rcases List.mem_cons.mp hmem with heq | hmem2
        · exact absurd (heq ▸ hlt) hhead
        · exact ⟨it, hmem2, hlt⟩
      obtain ⟨it, hmem, hlt, herr⟩ := ih (fun x hx => hvalid x (by simp [hx])) hrest
      refine ⟨it, by simp [hmem], hlt, ?_⟩
      simp only [buildDeductions, if_neg hcond, if_neg hhead, herr]

/-- Any invalid identity or insufficient stock in the cart makes the
validation loop fail. -/
theorem buildDeductions_fails (gab : String → List AvailableBatch) :
    ∀ items : List CartItem,
      (∃ it ∈ items, it.product_id = "" ∨ it.product_name = "" ∨
        ((gab it.product_id).map (fun b => b.quantity)).sum < it.quantity) →
      ∃ msg, buildDeductions gab items = Except.error msg := by
  intro items
  induction items with
  | nil => intro h; simp at h
  | cons item rest ih =>
    intro hbad
    by_cases hcond : item.product_id = "" ∨ item.product_name = ""
    · exact ⟨"Invalid cart item", by simp only [buildDeductions, if_pos hcond]⟩
    · by_cases hins : ((gab item.product_id).map (fun b => b.quantity)).sum < item.quantity
      · refine ⟨"Insufficient stock for " ++ item.product_name ++ ". Available: " ++
          toString (((gab item.product_id).map (fun b => b.quantity)).sum), ?_⟩
        simp only [buildDeductions, if_neg hcond, if_pos hins]
      · have hrest : ∃ it ∈ rest, it.product_id = "" ∨ it.product_name = "" ∨
            ((gab it.product_id).map (fun b => b.quantity)).sum < it.quantity := by
          rcases hbad with ⟨it, hmem, hor⟩
          rcases List.mem_cons.mp hmem with heq | hmem2
          · subst heq
            rcases hor with h | h | h
            · exact absurd (Or.inl h) hcond
            · exact absurd (Or.inr h) hcond
            · exact absurd h hins
          · exact ⟨it, hmem2, hor⟩
        obtain ⟨msg, herr⟩ := ih hrest
        exact ⟨msg, by simp only [buildDeductions, if_neg hcond, if_neg hins, herr]⟩

/-- C2.  Insufficient stock: when every cart item carries a product
identity and name and some item requests more than its batches hold,
`processSale` fails, its error is the insufficient-stock message naming
such an item and its available total, and the store is left untouched (no
deductions, no persisted rows). -/
theorem insufficient_stock_fails (store : Store) (items : List CartItem) (pm : String)
    (gab : String → List AvailableBatch) (cash : Option String) (sid : String)
    (nowMs : Nat) (faults : SaleFaults)
    (hvalid : ∀ it ∈ items, it.product_id ≠ "" ∧ it.product_name ≠ "")
    (hins : ∃ it ∈ items, ((gab it.product_id).map (fun b => b.quantity)).sum < it.quantity) :
    (processSale store items pm gab cash sid nowMs faults).1.success = false ∧
    (∃ it ∈ items, ((gab it.product_id).map (fun b => b.quantity)).sum < it.quantity ∧
      (processSale store items pm gab cash sid nowMs faults).1.error =
        some ("Insufficient stock for " ++ it.product_name ++ ". Available: " ++
          toString (((gab it.product_id).map (fun b => b.quantity)).sum))) ∧
    (processSale store items pm gab cash sid nowMs faults).2 = store := by
  obtain ⟨it, hmem, hlt, herr⟩ := buildDeductions_insufficient gab items hvalid hins
  exact ⟨by simp [processSale, herr], ⟨it, hmem, hlt, by simp [processSale, herr]⟩,
    by simp [processSale, herr]⟩

/-- Evaluation witness for C2: requesting 5 units with only 3 available
fails with the expected message and leaves the store unchanged. -/
theorem insufficient_stock_fails_witness :
    (processSale c2Store c2Cart "cash" c2Gab none "s1" 0 noSaleFaults).1.success = false ∧
    (∃ it ∈ c2Cart, ((c2Gab it.product_id).map (fun b => b.quantity)).sum < it.quantity ∧
      (processSale c2Store c2Cart "cash" c2Gab none "s1" 0 noSaleFaults).1.error =
        some ("Insufficient stock for " ++ it.product_name ++ ". Available: " ++
          toString (((c2Gab it.product_id).map (fun b => b.quantity)).sum))) ∧
    (processSale c2Store c2Cart "cash" c2Gab none "s1" 0 noSaleFaults).2 = c2Store :=
  insufficient_stock_fails c2Store c2Cart "cash" c2Gab none "s1" 0 noSaleFaults
    (by decide) (by decide)

/-- C5.  Validate-all-before-write: a cart containing any item with a
missing product identity or display name, or any item whose batches sum
below its requested quantity, makes `processSale` fail with no sale in
the result and the store byte-identical to before: no sale row, no sale
items, no batch update is written. -/
theorem validate_all_before_write (store : Store) (items : List CartItem) (pm : String)
    (gab : String → List AvailableBatch) (cash : Option String) (sid : String)
    (nowMs : Nat) (faults : SaleFaults)
    (hbad : ∃ it ∈ items, it.product_id = "" ∨ it.product_name = "" ∨
      ((gab it.product_id).map (fun b => b.quantity)).sum < it.quantity) :
    (processSale store items pm gab cash sid nowMs faults).1.success = false ∧
    (processSale store items pm gab cash sid nowMs faults).1.sale = none ∧
    (∃ m, (processSale store items pm gab cash sid nowMs faults).1.error = some m) ∧
    (processSale store items pm gab cash sid nowMs faults).2 = store := by
  obtain ⟨msg, herr⟩ := buildDeductions_fails gab items hbad
  exact ⟨by simp [processSale, herr], by simp [processSale, herr],
    ⟨msg, by simp [processSale, herr]⟩, by simp [processSale, herr]⟩

/-- Evaluation witness for C5: an item with an empty display name aborts
the sale before any write. -/
theorem validate_all_before_write_witness :
    (processSale c2Store c5Cart "cash" c2Gab none "s1" 0 noSaleFaults).1.success = false ∧
    (processSale c2Store c5Cart "cash" c2Gab none "s1" 0 noSaleFaults).1.sale = none ∧
    (∃ m, (processSale c2Store c5Cart "cash" c2Gab none "s1" 0 noSaleFaults).1.error = some m) ∧
    (processSale c2Store c5Cart "cash" c2Gab none "s1" 0 noSaleFaults).2 = c2Store :=
  validate_all_before_write c2Store c5Cart "cash" c2Gab none "s1" 0 noSaleFaults
    (by decide)

/-- C3 evaluation.  Two cart lines drawing one unit each from the same
batch `B` (current quantity 10) leave the batch at 9, not at the
10 - (1 + 1) = 8 the specification requires: the update loop computes both
writes from the same fetched snapshot and the second write overwrites the
first, losing a deduction. -/
theorem sale_same_batch_lost_update :
    mapGet (processSale c3Store c3Cart "cash" c3Gab none "s1" 0 noSaleFaults).2.batches
      "B" = some 9 ∧
    mapGet (processSale c3Store c3Cart "cash" c3Gab none "s1" 0 noSaleFaults).2.batches
      "B" ≠ some (10 - (1 + 1)) := by decide

/-- C9.  Structured results: for every input and every injected
storage-layer exception, `processSale` and `processReturn` return a
structured outcome: success with no error, or failure with a
human-readable message.  No fault escapes the surrounding catch. -/
theorem structured_failure_results :
    (∀ (store : Store) (items : List CartItem) (pm : String)
      (gab : String → List AvailableBatch) (cash : Option String) (sid : String)
      (nowMs : Nat) (faults : SaleFaults),
      ((processSale store items pm gab cash sid nowMs faults).1.success = true ∧
        (processSale store items pm gab cash sid nowMs faults).1.error = none) ∨
      ((processSale store items pm gab cash sid nowMs faults).1.success = false ∧
        ∃ m, (processSale store items pm gab cash sid nowMs faults).1.error = some m)) ∧
    (∀ (store : Store) (saleId : String) (returnItems : List ReturnRequest)
      (reason : String) (retBy : Option String) (rid rcpt : String) (faults : ReturnFaults),
      ((processReturn store saleId returnItems reason retBy rid rcpt faults).1.success = true ∧
        (processReturn store saleId returnItems reason retBy rid rcpt faults).1.error = none) ∨
      ((processReturn store saleId returnItems reason retBy rid rcpt faults).1.success = false ∧
        ∃ m, (processReturn store saleId returnItems reason retBy rid rcpt faults).1.error =
          some m)) := by
  constructor
  · intro store items pm gab cash sid nowMs faults
    cases hb : buildDeductions gab items with
    | error msg => simp [processSale, hb]
    | ok iwds =>
      rcases faults with ⟨frq, fsi, fii, fbs, fbu⟩
      simp only [processSale, hb]
      cases fsi <;> cases fii <;> cases fbs <;> cases fbu <;> (repeat' split) <;> simp
  · intro store saleId returnItems reason retBy rid rcpt faults
    rcases faults with ⟨fri, fii, fbs, fbu⟩
    by_cases hg : saleId = "" ∨ returnItems.isEmpty
    · simp only [processReturn, if_pos hg]
      simp
    · simp only [processReturn, if_neg hg]
      cases fri <;> cases fii <;> cases fbs <;> cases fbu <;> (repeat' split) <;> simp

/-- The restore walk draws from a sublist of the ledger, in ledger order;
every emitted row restores a positive amount bounded by the amount the
ledger entry originally deducted from that batch. -/
theorem walkLedger_sources (rid sid pid : String) (l : List BatchDeduction) :
    ∀ rem : Int, ∃ sub : List BatchDeduction, List.Sublist sub l ∧
      List.Forall₂ (fun (r : ReturnItemRow) (d : BatchDeduction) =>
        r.batch_id = some d.batch_id ∧ 0 < r.quantity ∧ r.quantity ≤ d.quantity)
        (walkLedger rid sid pid rem l) sub := by
  induction l with
  | nil => intro rem; exact ⟨[], List.Sublist.refl [], by simp [walkLedger]⟩
  | cons d ds ih =>
    intro rem
    by_cases hrem : rem ≤ 0
    · exact ⟨[], List.nil_sublist _, by simp [walkLedger, hrem]⟩
    · by_cases hres : min d.quantity rem > 0
      · obtain ⟨sub, hsub, hf⟩ := ih (rem - min d.quantity rem)
        refine ⟨d :: sub, List.Sublist.cons₂ d hsub, ?_⟩
        simp only [walkLedger, if_neg hrem, if_pos hres]
        exact List.Forall₂.cons ⟨rfl, hres, min_le_left _ _⟩ hf
      · obtain ⟨sub, hsub, hf⟩ := ih rem
        refine ⟨sub, List.Sublist.cons d hsub, ?_⟩
        simpa [walkLedger, hrem, hres] using hf

/-- The restore walk never hands back more than the requested quantity. -/
theorem walkLedger_sum_le (rid sid pid : String) (l : List BatchDeduction) :
    ∀ rem : Int, 0 ≤ rem →
      ((walkLedger rid sid pid rem l).map (fun r => r.quantity)).sum ≤ rem := by
  induction l with
  | nil => intro rem h; simpa [walkLedger] using h
  | cons d ds ih =>
    intro rem h
    by_cases hrem : rem ≤ 0
    · simpa [walkLedger, hrem] using h
    · by_cases hres : min d.quantity rem > 0
      · simp only [walkLedger, if_neg hrem, if_pos hres, List.map_cons, List.sum_cons]
        have hle : min d.quantity rem ≤ rem := min_le_right _ _
        have := ih (rem - min d.quantity rem) (by omega)
        omega
      · simp only [walkLedger, if_neg hrem, if_neg hres]
        exact ih rem h

/-- C6.  Return restoration: a return item with a non-empty deduction
ledger is walked in ledger order, restoring per batch at most what that
ledger entry deducted, never exceeding the requested quantity; a return
item without a ledger becomes a single recorded row with no batch
attribution carrying the full requested quantity, and leaves every batch
quantity untouched. -/
theorem return_restoration_order :
    (∀ (rid : String) (item : ReturnRequest) (l : List BatchDeduction),
      item.batch_deductions = some l → l ≠ [] →
      (∃ sub : List BatchDeduction, List.Sublist sub l ∧
        List.Forall₂ (fun (r : ReturnItemRow) (d : BatchDeduction) =>
          r.batch_id = some d.batch_id ∧ 0 < r.quantity ∧ r.quantity ≤ d.quantity)
          (returnRowsFor rid item) sub) ∧
      (0 ≤ item.quantity →
        ((returnRowsFor rid item).map (fun r => r.quantity)).sum ≤ item.quantity)) ∧
    (∀ (store : Store) (saleId reason rid rcpt : String) (retBy : Option String)
      (item : ReturnRequest),
      saleId ≠ "" →
      (item.batch_deductions = none ∨ item.batch_deductions = some []) →
      (processReturn store saleId [item] reason retBy rid rcpt noReturnFaults).1.success =
        true ∧
      (processReturn store saleId [item] reason retBy rid rcpt noReturnFaults).2.return_items =
        { return_id := rid, sale_item_id := item.sale_item_id, product_id := item.product_id
          batch_id := none, quantity := item.quantity } :: store.return_items ∧
      (processReturn store saleId [item] reason retBy rid rcpt noReturnFaults).2.batches =
        store.batches) := by
  constructor
  · intro rid item l hbd hne
    have hrows : returnRowsFor rid item =
        walkLedger rid item.sale_item_id item.product_id item.quantity l := by
      cases l with
      | nil => exact absurd rfl hne
      | cons d ds => simp [returnRowsFor, hbd]
    rw [hrows]
    exact ⟨walkLedger_sources rid item.sale_item_id item.product_id l item.quantity,
      walkLedger_sum_le rid item.sale_item_id item.product_id l item.quantity⟩
  · intro store saleId reason rid rcpt retBy item hsale hbd
    have hrows : returnRowsFor rid item =
        [{ return_id := rid, sale_item_id := item.sale_item_id, product_id := item.product_id
           batch_id := none, quantity := item.quantity }] := by
      rcases hbd with h | h <;> simp [returnRowsFor, h]
    have hcond : ¬ (saleId = "" ∨ ([item] : List ReturnRequest).isEmpty) := by
      simp [hsale]
    simp only [processReturn, if_neg hcond, noReturnFaults]
    simp [hrows]

/-- Evaluation witness for C6, exercising both branches: a ledger of two
entries (3 then 2) against a request of 4, and a ledger-free item. -/
theorem return_restoration_order_witness :
    ((∃ sub : List BatchDeduction,
      List.Sublist sub
        [ { batch_id := "b1", batch_number := "B1", quantity := 3, expiry_date := "e1" },
          { batch_id := "b2", batch_number := "B2", quantity := 2, expiry_date := "e2" } ] ∧
      List.Forall₂ (fun (r : ReturnItemRow) (d : BatchDeduction) =>
        r.batch_id = some d.batch_id ∧ 0 < r.quantity ∧ r.quantity ≤ d.quantity)
        (returnRowsFor "rid"
          { sale_item_id := "si", product_id := "p", quantity := 4
            batch_deductions := some
              [ { batch_id := "b1", batch_number := "B1", quantity := 3, expiry_date := "e1" },
                { batch_id := "b2", batch_number := "B2", quantity := 2, expiry_date := "e2" } ] })
        sub) ∧
      (0 ≤ (4 : Int) →
        ((returnRowsFor "rid"
          { sale_item_id := "si", product_id := "p", quantity := 4
            batch_deductions := some
              [ { batch_id := "b1", batch_number := "B1", quantity := 3, expiry_date := "e1" },
                { batch_id := "b2", batch_number := "B2", quantity := 2, expiry_date := "e2" } ] }).map
          (fun r => r.quantity)).sum ≤ 4)) ∧
    ((processReturn c2Store "s1"
        [{ sale_item_id := "si", product_id := "p", quantity := 2, batch_deductions := none }]
        "damaged" none "r1" "RET-1" noReturnFaults).1.success = true ∧
      (processReturn c2Store "s1"
        [{ sale_item_id := "si", product_id := "p", quantity := 2, batch_deductions := none }]
        "damaged" none "r1" "RET-1" noReturnFaults).2.return_items =
        { return_id := "r1", sale_item_id := "si", product_id := "p"
          batch_id := none, quantity := 2 } :: c2Store.return_items ∧
      (processReturn c2Store "s1"
        [{ sale_item_id := "si", product_id := "p", quantity := 2, batch_deductions := none }]
        "damaged" none "r1" "RET-1" noReturnFaults).2.batches = c2Store.batches) :=
  ⟨return_restoration_order.1 "rid"
      { sale_item_id := "si", product_id := "p", quantity := 4
        batch_deductions := some
          [ { batch_id := "b1", batch_number := "B1", quantity := 3, expiry_date := "e1" },
            { batch_id := "b2", batch_number := "B2", quantity := 2, expiry_date := "e2" } ] }
      _ rfl (by decide),
   return_restoration_order.2 c2Store "s1" "damaged" "r1" "RET-1" none
      { sale_item_id := "si", product_id := "p", quantity := 2, batch_deductions := none }
      (by decide) (Or.inl rfl)⟩

/-! ## Association-list bookkeeping lemmas for the stock-restore step -/

/-- Unfolding lemma for `mapGet` on a cons cell. -/
theorem mapGet_cons (p : String × Int) (rest : List (String × Int)) (k : String) :
    mapGet (p :: rest) k = if p.1 = k then some p.2 else mapGet rest k := by
  by_cases h : p.1 = k
  · simp [mapGet, List.find?_cons_of_pos, h]
  · simp [mapGet, List.find?_cons_of_neg, h]

/-- Updating one batch id leaves lookups of other ids unchanged. -/
theorem mapGet_setBatchQty_other (b k : String) (v : Int) (h : k ≠ b) :
    ∀ bs : List (String × Int), mapGet (setBatchQty bs b v) k = mapGet bs k := by
  intro bs
  induction bs with
  | nil => rfl
  | cons p rest ih =>
    show mapGet ((if p.1 = b then (p.1, v) else p) :: setBatchQty rest b v) k =
      mapGet (p :: rest) k
    by_cases hp : p.1 = b
    · have hpk : ¬ p.1 = k := by rw [hp]; exact fun hh => h hh.symm
      simp [mapGet_cons, hp, hpk, ih, Ne.symm h]
    · simp only [if_neg hp, mapGet_cons]
      by_cases hk : p.1 = k
      · simp [hk]
      · simp [hk, ih]

/-- Updating a present batch id makes its lookup read the new value. -/
theorem mapGet_setBatchQty_self (b : String) (v : Int) :
    ∀ bs : List (String × Int), b ∈ bs.map Prod.fst →
      mapGet (setBatchQty bs b v) b = some v := by
  intro bs
  induction bs with
  | nil => intro h; simp at h
  | cons p rest ih =>
    intro hmem
    show mapGet ((if p.1 = b then (p.1, v) else p) :: setBatchQty rest b v) b = some v
    by_cases hp : p.1 = b
    · simp [mapGet_cons, hp]
    · have hmem2 : b ∈ rest.map Prod.fst := by
        rw [List.map_cons] at hmem
        rcases List.mem_cons.mp hmem with h | h
        · exact absurd h.symm hp
        · exact h
      simp [mapGet_cons, hp, ih hmem2]

/-- Updating a batch quantity does not change the set of batch ids. -/
theorem setBatchQty_keys (bs : List (String × Int)) (b : String) (v : Int) :
    (setBatchQty bs b v).map Prod.fst = bs.map Prod.fst := by
  unfold setBatchQty
  rw [List.map_map]
  refine List.map_congr_left ?_
  intro p _
  by_cases hp : p.1 = b <;> simp [hp, Function.comp]

/-- Updating an absent batch id is a no-op. -/
theorem setBatchQty_not_mem (bs : List (String × Int)) (b : String) (v : Int)
    (h : b ∉ bs.map Prod.fst) : setBatchQty bs b v = bs := by
  unfold setBatchQty
  conv_rhs => rw [show bs = List.map id bs from (List.map_id bs).symm]
  refine List.map_congr_left ?_
  intro p hp
  have hne : p.1 ≠ b := fun hh => h (hh ▸ List.mem_map_of_mem Prod.fst hp)
  simp [hne]

/-- A lookup of a present key yields a value. -/
theorem mapGet_some_of_mem (b : String) :
    ∀ bs : List (String × Int), b ∈ bs.map Prod.fst → ∃ q, mapGet bs b = some q := by
  intro bs
  induction bs with
  | nil => intro h; simp at h
  | cons p rest ih =>
    intro hmem
    by_cases hp : p.1 = b
    · exact ⟨p.2, by rw [mapGet_cons, if_pos hp]⟩
    · have : b ∈ rest.map Prod.fst := by
        rcases List.mem_cons.mp hmem with h | h
        · exact absurd h.symm hp
        · exact h
      obtain ⟨q, hq⟩ := ih this
      exact ⟨q, by rw [mapGet_cons, if_neg hp]; exact hq⟩

/-- With distinct batch ids, one absolute write moves the total stock by
the difference between the written and the previous value. -/
theorem setBatchQty_sum (b : String) (v q0 : Int) :
    ∀ bs : List (String × Int), (bs.map Prod.fst).Nodup → mapGet bs b = some q0 →
      ((setBatchQty bs b v).map (fun p => p.2)).sum =
        (bs.map (fun p => p.2)).sum - q0 + v := by
  intro bs
  induction bs with
  | nil => intro _ h; simp [mapGet] at h
  | cons p rest ih =>
    intro hnodup hget
    rw [mapGet_cons] at hget
    rw [List.map_cons] at hnodup
    have hnodup2 := List.nodup_cons.mp hnodup
    show ((((if p.1 = b then (p.1, v) else p) :: setBatchQty rest b v)).map
      (fun p => p.2)).sum = ((p :: rest).map (fun p => p.2)).sum - q0 + v
    by_cases hp : p.1 = b
    · rw [if_pos hp] at hget ⊢
      have hq0 : q0 = p.2 := by
        injection hget with hh
        exact hh.symm
      have hniz : b ∉ rest.map Prod.fst := hp ▸ hnodup2.1
      rw [setBatchQty_not_mem rest b v hniz]
      show (v + (rest.map (fun p => p.2)).sum) =
        (p.2 + (rest.map (fun p => p.2)).sum) - q0 + v
      omega
    · rw [if_neg hp] at hget ⊢
      have := ih hnodup2.2 hget
      show (p.2 + ((setBatchQty rest b v).map (fun p => p.2)).sum) =
        (p.2 + (rest.map (fun p => p.2)).sum) - q0 + v
      omega

/-- Applying a fan-out of absolute writes with pairwise-distinct ids, all
of which address existing batches, moves the total stock by the sum of the
per-write differences against the pre-state. -/
theorem applyUpdates_sum :
    ∀ (ups bs : List (String × Int)), (bs.map Prod.fst).Nodup →
      (ups.map Prod.fst).Nodup → (∀ u ∈ ups, u.1 ∈ bs.map Prod.fst) →
      ((applyUpdates bs ups).map (fun p => p.2)).sum =
        (bs.map (fun p => p.2)).sum +
          (ups.map (fun u => u.2 - (mapGet bs u.1).getD 0)).sum := by
  intro ups
  induction ups with
  | nil => intro bs _ _ _; simp [applyUpdates]
  | cons u rest ih =>
    intro bs hbs hups hmem
    obtain ⟨q0, hq0⟩ := mapGet_some_of_mem u.1 bs (hmem u (by simp))
    have hkeys := setBatchQty_keys bs u.1 u.2
    have hnotin : u.1 ∉ rest.map Prod.fst := (List.nodup_cons.mp (by simpa using hups)).1
    have hrest : ∀ w ∈ rest, w.1 ∈ (setBatchQty bs u.1 u.2).map Prod.fst := by
      rw [hkeys]; intro w hw; exact hmem w (List.mem_cons_of_mem u hw)
    have hstep : applyUpdates bs (u :: rest) = applyUpdates (setBatchQty bs u.1 u.2) rest := rfl
    rw [hstep, ih (setBatchQty bs u.1 u.2) (hkeys ▸ hbs)
      (List.nodup_cons.mp (by simpa using hups)).2 hrest]
    have hmaps : rest.map (fun w => w.2 - (mapGet (setBatchQty bs u.1 u.2) w.1).getD 0) =
        rest.map (fun w => w.2 - (mapGet bs w.1).getD 0) := by
      refine List.map_congr_left ?_
      intro w hw
      have hw1 : w.1 ≠ u.1 := fun hh => hnotin (hh ▸ List.mem_map_of_mem Prod.fst hw)
      rw [mapGet_setBatchQty_other u.1 w.1 u.2 hw1]
    rw [hmaps, setBatchQty_sum u.1 u.2 q0 bs hbs hq0]
    simp only [List.map_cons, List.sum_cons, hq0, Option.getD_some]
    omega

/-- Setting a key present in the map reads back the new value. -/
theorem mapGet_mapSet_self (m : List (String × Int)) (k : String) (v : Int) :
    mapGet (mapSet m k v) k = some v := by
  by_cases hany : m.any (fun p => p.1 = k) = true
  · obtain ⟨p, hp, hpk⟩ := List.any_eq_true.mp hany
    have hk : k ∈ m.map Prod.fst :=
      (of_decide_eq_true hpk) ▸ List.mem_map_of_mem Prod.fst hp
    have hms : mapSet m k v = setBatchQty m k v := by
      unfold mapSet setBatchQty
      rw [if_pos hany]
    rw [hms]
    exact mapGet_setBatchQty_self k v m hk
  · have happ : mapSet m k v = m ++ [(k, v)] := by
      unfold mapSet
      rw [if_neg hany]
    rw [happ]
    have hnot : ∀ p ∈ m, p.1 ≠ k := by
      intro p hp hh
      exact hany (List.any_eq_true.mpr ⟨p, hp, decide_eq_true hh⟩)
    clear hany happ
    induction m with
    | nil => simp [mapGet_cons]
    | cons p rest ih =>
      rw [List.cons_append, mapGet_cons, if_neg (hnot p (by simp))]
      exact ih (fun w hw => hnot w (List.mem_cons_of_mem p hw))

/-- Setting one key leaves lookups of other keys unchanged. -/
theorem mapGet_mapSet_other (m : List (String × Int)) (k k2 : String) (v : Int)
    (h : k2 ≠ k) : mapGet (mapSet m k v) k2 = mapGet m k2 := by
  by_cases hany : m.any (fun p => p.1 = k) = true
  · have hms : mapSet m k v = setBatchQty m k v := by
      unfold mapSet setBatchQty
      rw [if_pos hany]
    rw [hms]
    exact mapGet_setBatchQty_other k k2 v h m
  · have happ : mapSet m k v = m ++ [(k, v)] := by
      unfold mapSet
      rw [if_neg hany]
    rw [happ]
    clear hany happ
    induction m with
    | nil =>
      rw [List.nil_append, mapGet_cons, if_neg (fun hh => h (hh : k = k2).symm)]
    | cons p rest ih =>
      rw [List.cons_append, mapGet_cons, mapGet_cons]
      by_cases hp : p.1 = k2
      · simp [hp]
      · rw [if_neg hp, if_neg hp]
        exact ih

/-- Building a JavaScript map from rows with pairwise-distinct keys keeps
the rows as they are. -/
theorem mapOfList_nodup :
    ∀ l acc : List (String × Int), (∀ p ∈ l, p.1 ∉ acc.map Prod.fst) →
      (l.map Prod.fst).Nodup →
      l.foldl (fun m p => mapSet m p.1 p.2) acc = acc ++ l := by
  intro l
  induction l with
  | nil => intro acc _ _; simp
  | cons p rest ih =>
    intro acc hdisj hnodup
    have hstep : mapSet acc p.1 p.2 = acc ++ [(p.1, p.2)] := by
      have hnot : ¬ acc.any (fun w => w.1 = p.1) = true := by
        intro hany
        obtain ⟨w, hw, hwk⟩ := List.any_eq_true.mp hany
        exact hdisj p (by simp) ((of_decide_eq_true hwk) ▸ List.mem_map_of_mem Prod.fst hw)
      unfold mapSet
      rw [if_neg hnot]
    rw [List.map_cons] at hnodup
    have hnodup2 := List.nodup_cons.mp hnodup
    have hdisj2 : ∀ w ∈ rest, w.1 ∉ (acc ++ [(p.1, p.2)]).map Prod.fst := by
      intro w hw
      simp only [List.map_append, List.mem_append, List.map_cons, List.map_nil,
        List.mem_singleton, not_or]
      refine ⟨hdisj w (List.mem_cons_of_mem p hw), ?_⟩
      intro hh
      exact hnodup2.1 (by simpa [hh] using List.mem_map_of_mem Prod.fst hw)
    calc (p :: rest).foldl (fun m w => mapSet m w.1 w.2) acc
        = rest.foldl (fun m w => mapSet m w.1 w.2) (mapSet acc p.1 p.2) := rfl
      _ = (acc ++ [(p.1, p.2)]) ++ rest := by rw [hstep]; exact ih _ hdisj2 hnodup2.2
      _ = acc ++ (p :: rest) := by simp

/-- With distinct keys, `new Map(entries)` is the identity on the entry
list. -/
theorem mapOfList_eq_self (l : List (String × Int)) (h : (l.map Prod.fst).Nodup) :
    mapOfList l = l := by
  have := mapOfList_nodup l [] (by simp) h
  simpa [mapOfList] using this

/-- Filtering to a superset of a key keeps its lookup. -/
theorem mapGet_filter_contains (ids : List String) (k : String) (h : ids.contains k = true) :
    ∀ bs : List (String × Int),
      mapGet (bs.filter (fun p => ids.contains p.1)) k = mapGet bs k := by
  intro bs
  induction bs with
  | nil => rfl
  | cons p rest ih =>
    by_cases hp : p.1 = k
    · rw [List.filter_cons_of_pos (by simpa [hp] using h), mapGet_cons, mapGet_cons,
        if_pos hp, if_pos hp]
    · cases hc : ids.contains p.1 with
      | true =>
        rw [List.filter_cons_of_pos (by simpa using hc), mapGet_cons, mapGet_cons,
          if_neg hp, if_neg hp]
        exact ih
      | false =>
        rw [List.filter_cons_of_neg (by simpa using hc), mapGet_cons, if_neg hp]
        exact ih

/-- When the requested return quantity covers the whole ledger, the walk
restores every ledger entry in full, in order. -/
theorem walkLedger_full (rid sid pid : String) :
    ∀ (l : List BatchDeduction) (rem : Int), (∀ d ∈ l, 0 < d.quantity) →
      (l.map (fun d => d.quantity)).sum ≤ rem →
      walkLedger rid sid pid rem l = l.map (ledgerRow rid sid pid) := by
  intro l
  induction l with
  | nil => intro rem _ _; rfl
  | cons d ds ih =>
    intro rem hpos hsum
    have hd : 0 < d.quantity := hpos d (by simp)
    have hds : 0 ≤ (ds.map (fun x => x.quantity)).sum := by
      refine List.sum_nonneg ?_
      intro y hy
      obtain ⟨x, hx, rfl⟩ := List.mem_map.mp hy
      exact le_of_lt (hpos x (List.mem_cons_of_mem d hx))
    rw [List.map_cons, List.sum_cons] at hsum
    have hrem : ¬ rem ≤ 0 := by omega
    have hmin : min d.quantity rem = d.quantity := min_eq_left (by omega)
    simp only [walkLedger, if_neg hrem, hmin, if_pos hd]
    rw [ih (rem - d.quantity) (fun x hx => hpos x (List.mem_cons_of_mem d hx)) (by omega)]
    simp [ledgerRow, List.map_cons]

/-- The batch ids of fully-restored ledger rows are the ledger batch ids. -/
theorem filterMap_ledgerRow (rid sid pid : String) :
    ∀ l : List BatchDeduction,
      (l.map (ledgerRow rid sid pid)).filterMap (fun r => r.batch_id) =
        l.map (fun d => d.batch_id) := by
  intro l
  induction l with
  | nil => rfl
  | cons d ds ih => simp [ledgerRow, List.filterMap_cons, ih]

/-- With pairwise-distinct ledger batch ids, the restore computation emits
one write per ledger entry: the previous quantity plus the restored
amount, the previous quantity being read from any map agreeing with the
store on those ids. -/
theorem computeRestore_ledgerRows (rid sid pid : String) :
    ∀ (l : List BatchDeduction) (m bs : List (String × Int)),
      (l.map (fun d => d.batch_id)).Nodup →
      (∀ d ∈ l, mapGet m d.batch_id = mapGet bs d.batch_id) →
      computeRestore m (l.map (ledgerRow rid sid pid)) =
        l.map (fun d => (d.batch_id, (mapGet bs d.batch_id).getD 0 + d.quantity)) := by
  intro l
  induction l with
  | nil => intro m bs _ _; rfl
  | cons d ds ih =>
    intro m bs hnodup hagree
    rw [List.map_cons] at hnodup
    have hnd := List.nodup_cons.mp hnodup
    rw [List.map_cons, List.map_cons]
    simp only [computeRestore, ledgerRow]
    rw [hagree d (by simp)]
    congr 1
    refine ih (mapSet m d.batch_id _) bs hnd.2 ?_
    intro x hx
    have hne : x.batch_id ≠ d.batch_id := by
      intro hh
      exact hnd.1 (hh ▸ List.mem_map_of_mem (fun d => d.batch_id) hx)
    rw [mapGet_mapSet_other _ _ _ _ hne]
    exact hagree x (List.mem_cons_of_mem d hx)

/-- C10.  Excess return quantity is silently dropped: when a return item
carries a non-empty ledger whose deduction quantities sum below the
requested quantity, `processReturn` succeeds without any error, records
exactly one row per ledger entry restoring the originally deducted
amount (so the recorded quantities grow by the ledger sum, not by the
requested quantity), and the total batch stock also grows by exactly the
ledger sum: the excess is neither recorded nor added to any batch. -/
theorem excess_return_quantity_dropped
    (st : Store) (saleId reason rid rcpt : String) (retBy : Option String)
    (item : ReturnRequest) (l : List BatchDeduction)
    (hsale : saleId ≠ "")
    (hbd : item.batch_deductions = some l)
    (hne : l ≠ [])
    (hpos : ∀ d ∈ l, 0 < d.quantity)
    (hexcess : (l.map (fun d => d.quantity)).sum < item.quantity)
    (hids : (l.map (fun d => d.batch_id)).Nodup)
    (hkeysnd : (st.batches.map Prod.fst).Nodup)
    (hkeys : ∀ d ∈ l, d.batch_id ∈ st.batches.map Prod.fst) :
    (processReturn st saleId [item] reason retBy rid rcpt noReturnFaults).1 =
      { success := true, error := none } ∧
    (processReturn st saleId [item] reason retBy rid rcpt noReturnFaults).2.return_items =
      l.map (ledgerRow rid item.sale_item_id item.product_id) ++ st.return_items ∧
    (((processReturn st saleId [item] reason retBy rid rcpt
        noReturnFaults).2.return_items).map (fun r => r.quantity)).sum =
      (st.return_items.map (fun r => r.quantity)).sum + (l.map (fun d => d.quantity)).sum ∧
    (((processReturn st saleId [item] reason retBy rid rcpt
        noReturnFaults).2.batches).map (fun p => p.2)).sum =
      (st.batches.map (fun p => p.2)).sum + (l.map (fun d => d.quantity)).sum := by
  obtain ⟨d0, ds0, hl⟩ : ∃ d0 ds0, l = d0 :: ds0 := by
    cases l with
    | nil => exact absurd rfl hne
    | cons a b => exact ⟨a, b, rfl⟩
  subst hl
  have hrows : returnRowsFor rid item =
      (d0 :: ds0).map (ledgerRow rid item.sale_item_id item.product_id) := by
    simp only [returnRowsFor, hbd]
    exact walkLedger_full rid item.sale_item_id item.product_id (d0 :: ds0)
      item.quantity hpos (le_of_lt hexcess)
  have hflat : (([item] : List ReturnRequest).flatMap (returnRowsFor rid)) =
      (d0 :: ds0).map (ledgerRow rid item.sale_item_id item.product_id) := by
    simp [hrows]
  have hie : ((d0 :: ds0).map (ledgerRow rid item.sale_item_id item.product_id)).isEmpty =
      false := rfl
  have hidseq : ((d0 :: ds0).map
      (ledgerRow rid item.sale_item_id item.product_id)).filterMap (fun r => r.batch_id) =
      (d0 :: ds0).map (fun d => d.batch_id) :=
    filterMap_ledgerRow rid item.sale_item_id item.product_id (d0 :: ds0)
  have hie2 : (((d0 :: ds0).map (fun d => d.batch_id)).isEmpty) = false := rfl
  have hcontains : ∀ d ∈ (d0 :: ds0),
      ((d0 :: ds0).map (fun x => x.batch_id)).contains d.batch_id = true := by
    intro d hd
    exact List.elem_eq_true_of_mem (List.mem_map_of_mem (fun x => x.batch_id) hd)
  have hagree : ∀ d ∈ (d0 :: ds0),
      mapGet (st.batches.filter
        (fun p => ((d0 :: ds0).map (fun x => x.batch_id)).contains p.1)) d.batch_id =
      mapGet st.batches d.batch_id := fun d hd =>
    mapGet_filter_contains ((d0 :: ds0).map (fun x => x.batch_id)) d.batch_id
      (hcontains d hd) st.batches
  have hfilnd : ((st.batches.filter
      (fun p => ((d0 :: ds0).map (fun x => x.batch_id)).contains p.1)).map Prod.fst).Nodup :=
    (List.Sublist.map Prod.fst (List.filter_sublist st.batches)).nodup hkeysnd
  have hmol : mapOfList (st.batches.filter
      (fun p => ((d0 :: ds0).map (fun x => x.batch_id)).contains p.1)) =
      st.batches.filter
        (fun p => ((d0 :: ds0).map (fun x => x.batch_id)).contains p.1) :=
    mapOfList_eq_self _ hfilnd
  have hcr : computeRestore (st.batches.filter
      (fun p => ((d0 :: ds0).map (fun x => x.batch_id)).contains p.1))
      ((d0 :: ds0).map (ledgerRow rid item.sale_item_id item.product_id)) =
      (d0 :: ds0).map (fun d =>
        (d.batch_id, (mapGet st.batches d.batch_id).getD 0 + d.quantity)) :=
    computeRestore_ledgerRows rid item.sale_item_id item.product_id (d0 :: ds0)
      _ st.batches hids hagree
  have hcond : ¬ (saleId = "" ∨ ([item] : List ReturnRequest).isEmpty) := by
    simp [hsale]
  have hrun : processReturn st saleId [item] reason retBy rid rcpt noReturnFaults =
      ({ success := true, error := none },
       { batches := applyUpdates st.batches ((d0 :: ds0).map (fun d =>
           (d.batch_id, (mapGet st.batches d.batch_id).getD 0 + d.quantity)))
         sales := st.sales
         sale_items := st.sale_items
         sales_returns := (⟨rid, saleId, rcpt, reason, retBy⟩ : SalesReturnRow)
           :: st.sales_returns
         return_items := (d0 :: ds0).map (ledgerRow rid item.sale_item_id item.product_id)
           ++ st.return_items }) := by
    simp only [processReturn, if_neg hcond, noReturnFaults, hflat, hie, hidseq, hie2,
      hmol, hcr]
    rfl
  refine ⟨by rw [hrun], by rw [hrun], ?_, ?_⟩
  · rw [hrun]
    show (((d0 :: ds0).map (ledgerRow rid item.sale_item_id item.product_id)
        ++ st.return_items).map (fun r => r.quantity)).sum = _
    rw [List.map_append, List.sum_append]
    have hq : ((d0 :: ds0).map (ledgerRow rid item.sale_item_id item.product_id)).map
        (fun r => r.quantity) = (d0 :: ds0).map (fun d => d.quantity) := by
      rw [List.map_map]
      rfl
    rw [hq]
    omega
  · rw [hrun]
    show ((applyUpdates st.batches ((d0 :: ds0).map (fun d =>
        (d.batch_id, (mapGet st.batches d.batch_id).getD 0 + d.quantity)))).map
        (fun p => p.2)).sum = _
    have hup1 : (((d0 :: ds0).map (fun d =>
        (d.batch_id, (mapGet st.batches d.batch_id).getD 0 + d.quantity))).map Prod.fst) =
        (d0 :: ds0).map (fun d => d.batch_id) := by
      rw [List.map_map]
      rfl
    have hmemup : ∀ u ∈ (d0 :: ds0).map (fun d =>
        (d.batch_id, (mapGet st.batches d.batch_id).getD 0 + d.quantity)),
        u.1 ∈ st.batches.map Prod.fst := by
      intro u hu
      obtain ⟨d, hd, rfl⟩ := List.mem_map.mp hu
      exact hkeys d hd
    rw [applyUpdates_sum ((d0 :: ds0).map (fun d =>
        (d.batch_id, (mapGet st.batches d.batch_id).getD 0 + d.quantity))) st.batches
      hkeysnd (by rw [hup1]; exact hids) hmemup]
    have hdelta : (((d0 :: ds0).map (fun d =>
        (d.batch_id, (mapGet st.batches d.batch_id).getD 0 + d.quantity))).map
        (fun u => u.2 - (mapGet st.batches u.1).getD 0)) =
        (d0 :: ds0).map (fun d => d.quantity) := by
      rw [List.map_map]
      refine List.map_congr_left ?_
      intro d _
      show ((mapGet st.batches d.batch_id).getD 0 + d.quantity) -
        (mapGet st.batches d.batch_id).getD 0 = d.quantity
      omega
    rw [hdelta]

/-- Evaluation witness for C10: requesting 9 units against a 2-unit
ledger succeeds, records a single 2-unit row, and adds 2 (not 9) to the
batch stock. -/
theorem excess_return_quantity_dropped_witness :
    (processReturn c10Store "s1" [c10Item] "why" none "r1" "RET-1" noReturnFaults).1 =
      { success := true, error := none } ∧
    (processReturn c10Store "s1" [c10Item] "why" none "r1" "RET-1"
        noReturnFaults).2.return_items =
      c10Ledger.map (ledgerRow "r1" c10Item.sale_item_id c10Item.product_id)
        ++ c10Store.return_items ∧
    (((processReturn c10Store "s1" [c10Item] "why" none "r1" "RET-1"
        noReturnFaults).2.return_items).map (fun r => r.quantity)).sum =
      (c10Store.return_items.map (fun r => r.quantity)).sum +
        (c10Ledger.map (fun d => d.quantity)).sum ∧
    (((processReturn c10Store "s1" [c10Item] "why" none "r1" "RET-1"
        noReturnFaults).2.batches).map (fun p => p.2)).sum =
      (c10Store.batches.map (fun p => p.2)).sum +
        (c10Ledger.map (fun d => d.quantity)).sum :=
  excess_return_quantity_dropped c10Store "s1" "why" "r1" "RET-1" none c10Item c10Ledger
    (by decide) rfl (by decide) (by decide) (by decide) (by decide) (by decide) (by decide)

/-- C4.  Round trip: settling a sale of quantity `q` for a product served
by a single batch with stock `s ≥ q`, then returning all `q` using the
sale item row that the sale recorded (its `batch_deductions` ledger),
restores the batch to exactly `s`. -/
theorem sale_return_round_trip
    (st : Store) (q s u t : Int) (bid bn exp pid pname pm reason : String)
    (cash : Option String) (saleId sid2 rid rcpt : String) (nowMs : Nat)
    (hq : 0 < q) (hs : q ≤ s) (hpid : pid ≠ "") (hpname : pname ≠ "")
    (hsaleId : saleId ≠ "") (hb : st.batches = [(bid, s)]) :
    ∃ si : SaleItemRow,
      (processSale st [⟨pid, pname, q, u, t⟩] pm (fun _ => [⟨bid, bn, s, exp⟩]) cash
        saleId nowMs noSaleFaults).2.sale_items.head? = some si ∧
      (processReturn
        (processSale st [⟨pid, pname, q, u, t⟩] pm (fun _ => [⟨bid, bn, s, exp⟩]) cash
          saleId nowMs noSaleFaults).2
        saleId [⟨sid2, pid, q, some si.batch_deductions⟩] reason cash rid rcpt
        noReturnFaults).2.batches = [(bid, s)] := by
  have hq1 : ¬ q ≤ 0 := by omega
  have hmin : min s q = q := min_eq_right hs
  have hfefo : fefoAllocate q [⟨bid, bn, s, exp⟩] =
      [⟨bid, bn, q, exp⟩] := by
    simp only [fefoAllocate, if_neg hq1]
    rw [hmin, if_neg hq1]
  have hins : ¬ ((([⟨bid, bn, s, exp⟩] : List AvailableBatch).map
      (fun b => b.quantity)).sum < q) := by
    simp only [List.map_cons, List.map_nil, List.sum_cons, List.sum_nil]
    omega
  have hbuild : buildDeductions (fun _ => [⟨bid, bn, s, exp⟩]) [⟨pid, pname, q, u, t⟩] =
      Except.ok [⟨pid, pname, q, u, t, [⟨bid, bn, q, exp⟩]⟩] := by
    simp only [buildDeductions]
    rw [if_neg (by simp [hpid, hpname]), if_neg hins, hfefo]
  have hrun1 : (processSale st [⟨pid, pname, q, u, t⟩] pm (fun _ => [⟨bid, bn, s, exp⟩])
      cash saleId nowMs noSaleFaults).2 =
      { batches := [(bid, s - q)]
        sales := ⟨saleId, generateReceiptNumber none nowMs st.sales, t, pm, cash⟩ :: st.sales
        sale_items := ⟨saleId, pid, pname, q, u, t, [⟨bid, bn, q, exp⟩]⟩ :: st.sale_items
        sales_returns := st.sales_returns
        return_items := st.return_items } := by
    simp [processSale, hbuild, noSaleFaults, hb, saleBatchUpdates, mapOfList, mapSet,
      mapGet, applyUpdates, setBatchQty]
  refine ⟨⟨saleId, pid, pname, q, u, t, [⟨bid, bn, q, exp⟩]⟩, ?_, ?_⟩
  · rw [hrun1]
    rfl
  · rw [hrun1]
    have hcond2 : ¬ (saleId = "" ∨
        ([⟨sid2, pid, q, some [⟨bid, bn, q, exp⟩]⟩] : List ReturnRequest).isEmpty) := by
      simp [hsaleId]
    have hwalk : walkLedger rid sid2 pid q [⟨bid, bn, q, exp⟩] =
        [⟨rid, sid2, pid, some bid, q⟩] := by
      simp only [walkLedger, if_neg hq1, min_self, if_pos hq]
    have hrr : returnRowsFor rid (⟨sid2, pid, q, some [⟨bid, bn, q, exp⟩]⟩ : ReturnRequest) =
        [⟨rid, sid2, pid, some bid, q⟩] := by
      simp only [returnRowsFor]
      exact hwalk
    simp only [processReturn, if_neg hcond2, noReturnFaults]
    simp [hrr, computeRestore, mapOfList, mapSet, mapGet, applyUpdates, setBatchQty]

/-- Evaluation witness for C4: selling 4 of 7 units and returning all 4
brings the batch back to 7. -/
theorem sale_return_round_trip_witness :
    ∃ si : SaleItemRow,
      (processSale c4Store [c4Cart] "cash" c4Gab none "sale1" 0
        noSaleFaults).2.sale_items.head? = some si ∧
      (processReturn
        (processSale c4Store [c4Cart] "cash" c4Gab none "sale1" 0 noSaleFaults).2
        "sale1" [⟨"si1", "p", 4, some si.batch_deductions⟩] "why" none "ret1" "RET-1"
        noReturnFaults).2.batches = [("b", 7)] :=
  sale_return_round_trip c4Store 4 7 1 4 "b" "BN" "e" "p" "N" "cash" "why" none
    "sale1" "si1" "ret1" "RET-1" 0 (by decide) (by decide) (by decide) (by decide)
    (by decide) rfl

end Pharmacy
